import Mathlib

/-!
Verification of the iris load-pipeline core (`lib/iris/__init__.py`).

The development shallowly embeds the module's pipeline:

* `Future` (run-time configuration options): the per-thread option mapping
  is an association list `OptMap`; `Future.setattr` embeds
  `Future.__setattr__`, `Future.context` embeds the
  `contextlib.contextmanager` generator `Future.context` (note: the source
  generator has no `try`/`finally` around its `yield`, and the embedding
  reflects that faithfully).
* URI handling (`_generate_cubes`): `decode_uri` and the two loaders live in
  `iris.io` and are opaque collaborators, so they are fields of an `IoModel`
  parameter.  Python's `sorted` on `(scheme, identifier)` string tuples is
  embedded as a stable insertion sort `sortPairs` for the lexicographic
  order `pairLe` (codepoint order on strings, scheme as primary key), and
  `itertools.groupby` as `groupPairs` (maximal runs of equal scheme).
* The four public entry points `load`, `load_cube`, `load_cubes`,
  `load_raw`, together with `_load_collection`.
-/

namespace Iris

/-! ## Future: per-thread option store -/

/-- The `__dict__` of a `Future` object: option name to boolean value. -/
abbrev OptMap := List (String × Bool)

/-- Read an option value (first binding wins, as in a Python dict). -/
def getOpt : OptMap → String → Option Bool
  | [], _ => none
  | (k, v) :: rest, n => if k == n then some v else getOpt rest n

/-- `name in self.__dict__`. -/
def hasOpt (st : OptMap) (n : String) : Bool := (getOpt st n).isSome

/-- Rebind an existing key, keeping order and all other bindings. -/
def setKey : OptMap → String → Bool → OptMap
  | [], _, _ => []
  | (k, v) :: rest, n, b => if k == n then (k, b) :: rest else (k, v) :: setKey rest n b

namespace Future

/-- `Future.__init__`: the mapping initially holds exactly the option
`cell_time_objects`. -/
def init (cell_time_objects : Bool) : OptMap := [("cell_time_objects", cell_time_objects)]

/-- `Future.__setattr__`: rebinding an existing option succeeds; any name
outside the originally-initialized set raises
`AttributeError("'Future' object has no attribute {!r}")` (the spec's
UnknownOptionError). -/
def setattr (st : OptMap) (name : String) (value : Bool) : Except String OptMap :=
  if hasOpt st name then .ok (setKey st name value)
  else .error ("'Future' object has no attribute '" ++ name ++ "'")

/-- The kwargs-application loop at the top of `Future.context`: overrides are
applied one at a time through `setattr`; the first unknown name aborts the
loop, leaving the overrides already applied in place. -/
def applyKwargs (st : OptMap) : List (String × Bool) → OptMap × Option String
  | [] => (st, none)
  | (n, v) :: rest =>
    match setattr st n v with
    | .ok st2 => applyKwargs st2 rest
    | .error msg => (st, some msg)

/-- How a `context` invocation can fail: the entry loop hit an unknown
option name, or the caller's block raised. -/
inductive CtxErr (ε : Type) where
  | unknownOption (msg : String)
  | bodyErr (e : ε)
deriving DecidableEq

/-- `Future.context(**kwargs)` as a state transformer.  The caller's scoped
block is `body`, which maps the state at entry to the state at its end plus
an optional raised exception.  Faithful to the source generator:
the snapshot `current_state` is taken, the kwargs are applied through
`setattr`, the block runs, and the restore (`clear` + `update`) runs only
after a *normal* `yield` return — the generator has no `try`/`finally`, so
an exception from the block (or from the kwargs loop) propagates with the
state left exactly as the failing step left it. -/
def context {ε : Type} (st0 : OptMap) (kwargs : List (String × Bool))
    (body : OptMap → OptMap × Option ε) : OptMap × Option (CtxErr ε) :=
  let current_state := st0
  match applyKwargs st0 kwargs with
  | (st1, some msg) => (st1, some (.unknownOption msg))
  | (st1, none) =>
    match body st1 with
    | (st2, some e) => (st2, some (.bodyErr e))
    | (_, none) => (current_state, none)

/-- A block that performs a sequence of direct attribute sets (each through
`__setattr__`, keeping the state unchanged on a failing set) and returns
normally. -/
def directSets (sets : List (String × Bool)) (st : OptMap) : OptMap × Option Unit :=
  (sets.foldl (fun s nv =>
    match setattr s nv.1 nv.2 with
    | .ok s2 => s2
    | .error _ => s) st, none)

end Future

/-! ## Location resolution: Python `sorted` and `itertools.groupby`

`_generate_cubes` sorts the decoded `(scheme, identifier)` string tuples
(`sorted(...)`, lexicographic codepoint order, scheme as primary key) and
then groups them into maximal runs of equal scheme (`itertools.groupby`
with `key=lambda x: x[0]`).  Both are embedded as structurally recursive
functions with the same extensional semantics: `pairLe` is antisymmetric in
both components, so the sorted permutation is unique and any stable sort
realizes `sorted`. -/

/-- Strict lexicographic order on codepoint sequences (Python `str` `<`). -/
def ltChars : List Char → List Char → Bool
  | [], [] => false
  | [], _ :: _ => true
  | _ :: _, [] => false
  | a :: as, b :: bs =>
    if a.toNat < b.toNat then true
    else if b.toNat < a.toNat then false
    else ltChars as bs

/-- Python `str` `<`. -/
def strLt (a b : String) : Bool := ltChars a.data b.data

/-- Python `str` `<=`. -/
def strLe (a b : String) : Bool := ltChars a.data b.data || a.data == b.data

/-- Python tuple comparison on `(scheme, identifier)`: scheme is the primary
key, the identifier breaks ties. -/
def pairLe (p q : String × String) : Bool :=
  if strLt p.1 q.1 then true
  else if strLt q.1 p.1 then false
  else strLe p.2 q.2

/-- Ordered insertion for `sortPairs`. -/
def insertPair (p : String × String) : List (String × String) → List (String × String)
  | [] => [p]
  | q :: rest => if pairLe p q then p :: q :: rest else q :: insertPair p rest

/-- Python `sorted` on the decoded tuples (insertion sort; `pairLe` is a
total order that is antisymmetric up to equality, so this is the unique
sorted permutation — extensionally the same function as any stable sort). -/
def sortPairs (l : List (String × String)) : List (String × String) := l.foldr insertPair []

/-- One step of run-grouping: prepend an element, merging it into the first
run when its scheme matches that run's scheme. -/
def addToGroups (p : String × String) :
    List (List (String × String)) → List (List (String × String))
  | [] => [[p]]
  | [] :: gs => [p] :: gs
  | ((q : String × String) :: t) :: gs =>
    if p.1 == q.1 then (p :: q :: t) :: gs else [p] :: (q :: t) :: gs

/-- `itertools.groupby(..., key=lambda x: x[0])`: splits a list into maximal
contiguous runs of equal first component (scheme). -/
def groupPairs (l : List (String × String)) : List (List (String × String)) :=
  l.foldr addToGroups []

/-- The scheme a nonempty group is keyed by: its first element's scheme
(the `groupby` key). -/
def headScheme : List (String × String) → String
  | [] => ""
  | x :: _ => x.1

/-! ## The record-stream pipeline -/

/-- A selection constraint: an opaque predicate over records, together with
the string the source interpolates into error messages
(`'   {} -> {} cubes'.format(pair.constraint, ...)`). -/
structure Constraint (R : Type) where
  str : String
  accepts : R → Bool

/-- The `constraints` argument of the load functions: absent (`None`), a
single constraint, or an iterable of constraints. -/
inductive ConstraintArg (R : Type) where
  | noneArg
  | one (c : Constraint R)
  | many (cs : List (Constraint R))

/-- Modelled from the spec: `iris._constraints.list_of_constraints` (the
module `iris._constraints` is not part of the sources).  `None` denotes
"match everything" and is normalized to a single always-true constraint; a
single constraint becomes a one-element list; an iterable is taken as-is. -/
def list_of_constraints {R : Type} : ConstraintArg R → List (Constraint R)
  | .noneArg => [⟨"Constraint()", fun _ => true⟩]
  | .one c => [c]
  | .many cs => cs

/-- How the lazy record stream of `_generate_cubes` can abort: a loader
signalled premature end-of-stream (`EOFError`, with its detail message), or
an unrecognized URI scheme group was reached. -/
inductive GenErr where
  | eof (detail : String)
  | unsupportedScheme (scheme : String)
deriving DecidableEq

/-- Modelled from the spec: the `iris.io` collaborators (`decode_uri`,
`load_files`, `load_http`) are external to the sources.  Each loader
returns the records it produced plus an optional premature end-of-stream
detail message; the per-record callback is side-effecting only and is
absorbed into the loader functions. -/
structure IoModel (R : Type) where
  decode_uri : String → String × String
  load_files : List String → List R × Option String
  load_http : List String → List R × Option String

/-- The `uris` argument: a single bare string, or an iterable of strings. -/
inductive UriInput where
  | single (s : String)
  | listOf (ls : List String)

/-- `if isinstance(uris, basestring): uris = [uris]`. -/
def uriList : UriInput → List String
  | .single s => [s]
  | .listOf ls => ls

/-- `uri_tuples = sorted(iris.io.decode_uri(uri) for uri in uris)`. -/
def uri_tuples {R : Type} (io : IoModel R) (uris : UriInput) : List (String × String) :=
  sortPairs ((uriList uris).map io.decode_uri)

/-- `part_names = [x[1] for x in groups]`: the raw identifiers of a
file-scheme group. -/
def fileArgs (g : List (String × String)) : List String := g.map Prod.snd

/-- `urls = [':'.join(x) for x in groups]`: each entry of an http/https
group reconstructed as `scheme:identifier`. -/
def httpArgs (g : List (String × String)) : List String :=
  g.map (fun x => x.1 ++ ":" ++ x.2)

/-- The schemes `_generate_cubes` recognizes. -/
def supportedScheme (s : String) : Bool := s == "file" || s == "http" || s == "https"

/-- The file branch of the dispatch: stream `load_files` over the group's
raw identifiers; on a premature end-of-stream the records produced so far
stand and the rest of the stream (`t`) is never reached. -/
def dispatchFile {R : Type} (io : IoModel R) (g : List (String × String))
    (t : List R × Option GenErr) : List R × Option GenErr :=
  match io.load_files (fileArgs g) with
  | (rs, some d) => (rs, some (.eof d))
  | (rs, none) => (rs ++ t.1, t.2)

/-- The http/https branch of the dispatch: stream `load_http` over the
group's entries reconstructed as `scheme:identifier`. -/
def dispatchHttp {R : Type} (io : IoModel R) (g : List (String × String))
    (t : List R × Option GenErr) : List R × Option GenErr :=
  match io.load_http (httpArgs g) with
  | (rs, some d) => (rs, some (.eof d))
  | (rs, none) => (rs ++ t.1, t.2)

/-- The dispatch loop of `_generate_cubes` over the scheme groups, in
order: a file group streams `load_files` on its raw identifiers, an
http/https group streams `load_http` on the reconstructed URLs, and any
other scheme raises `ValueError` at the point its group is reached —
records already yielded by earlier groups stand, later groups are never
touched.  A premature end-of-stream from a loader likewise aborts the
stream at that point. -/
def processGroups {R : Type} (io : IoModel R) :
    List (List (String × String)) → List R × Option GenErr
  | [] => ([], none)
  | [] :: gs => processGroups io gs
  | ((scheme, ident) :: rest) :: gs =>
    if scheme == "file" then
      dispatchFile io ((scheme, ident) :: rest) (processGroups io gs)
    else if scheme == "http" || scheme == "https" then
      dispatchHttp io ((scheme, ident) :: rest) (processGroups io gs)
    else ([], some (.unsupportedScheme scheme))

/-- `_generate_cubes(uris, callback)`: the records the lazy generator
yields, in order, plus the error that aborts the stream, if any. -/
def _generate_cubes {R : Type} (io : IoModel R) (uris : UriInput) : List R × Option GenErr :=
  processGroups io (groupPairs (uri_tuples io uris))

/-- The exceptions a load call can surface: `iris.exceptions.TranslationError`,
a plain `ValueError` (unknown scheme, or the `load_cube` arity check), and
`iris.exceptions.ConstraintMismatchError`. -/
inductive LoadErr where
  | translationError (msg : String)
  | valueError (msg : String)
  | constraintMismatchError (msg : String)
deriving DecidableEq

/-- Python `'{!r}'.format(s)` for the plain detail strings used here. -/
def pyStrRepr (s : String) : String := "'" ++ s ++ "'"

/-- Modelled from the spec: `iris.cube._CubeFilterCollection.from_cubes`
(the module `iris.cube` is not part of the sources).  ConstraintPartition:
normalize the constraints, then give each constraint the records matching
it, in generation order — one pair per constraint, in constraint order. -/
def from_cubes {R : Type} (cubes : List R) (carg : ConstraintArg R) :
    List (Constraint R × List R) :=
  (list_of_constraints carg).map (fun c => (c, cubes.filter c.accepts))

/-- Modelled from the spec: `_CubeFilterCollection.merged()` — the external
merge algorithm is applied to each pair's record list independently; pair
order and constraints are unchanged. -/
def mergedPairs {R : Type} (merge : List R → List R)
    (coll : List (Constraint R × List R)) : List (Constraint R × List R) :=
  coll.map (fun p => (p.1, merge p.2))

/-- Modelled from the spec: `_CubeFilterCollection.cubes()` — flatten every
pair's record list in pair order, each list's internal order preserved. -/
def collectionCubes {R : Type} (coll : List (Constraint R × List R)) : List R :=
  (coll.map Prod.snd).flatten

/-- `_load_collection`: build the stream, partition it by the constraints,
and turn a premature `EOFError` into a `TranslationError` carrying the
original detail; an unknown-scheme `ValueError` propagates unchanged. -/
def _load_collection {R : Type} (io : IoModel R) (uris : UriInput)
    (carg : ConstraintArg R) : Except LoadErr (List (Constraint R × List R)) :=
  match _generate_cubes io uris with
  | (_, some (.eof d)) =>
    .error (.translationError ("The file appears empty or incomplete: " ++ pyStrRepr d))
  | (_, some (.unsupportedScheme s)) =>
    .error (.valueError ("Iris cannot handle the URI scheme: " ++ s))
  | (cubes, none) => .ok (from_cubes cubes carg)

/-- `load`: partition, merge, flatten; no cardinality check. -/
def load {R : Type} (io : IoModel R) (merge : List R → List R) (uris : UriInput)
    (carg : ConstraintArg R) : Except LoadErr (List R) :=
  (_load_collection io uris carg).map (fun coll => collectionCubes (mergedPairs merge coll))

/-- `load_cube`: normalize the constraint argument and fail with
`ValueError('only a single constraint is allowed')` unless exactly one
constraint results — before any stream is built; then partition, merge,
flatten, and require exactly one cube overall. -/
def load_cube {R : Type} (io : IoModel R) (merge : List R → List R) (uris : UriInput)
    (carg : ConstraintArg R) : Except LoadErr R :=
  let constraints := list_of_constraints carg
  if constraints.length ≠ 1 then .error (.valueError "only a single constraint is allowed")
  else
    match (_load_collection io uris (.many constraints)).map
        (fun coll => collectionCubes (mergedPairs merge coll)) with
    | .error e => .error e
    | .ok [c] => .ok c
    | .ok cubes =>
      .error (.constraintMismatchError
        ("Expected exactly one cube, found " ++ toString cubes.length ++ "."))

/-- `filter(lambda pair: len(pair) != 1, collection.pairs)`. -/
def badPairs {R : Type} (coll : List (Constraint R × List R)) :
    List (Constraint R × List R) :=
  coll.filter (fun p => p.2.length != 1)

/-- The `ConstraintMismatchError` message of `load_cubes`: one line
`'   {} -> {} cubes'` per offending pair, joined by newlines after a
leading newline. -/
def mismatchMessage {R : Type} (bad : List (Constraint R × List R)) : String :=
  "\n" ++ String.intercalate "\n"
    (bad.map (fun p => "   " ++ p.1.str ++ " -> " ++ toString p.2.length ++ " cubes"))

/-- `load_cubes`: partition and merge, then require every pair's merged
record list to have length exactly one; on failure the error enumerates
every offending pair with its count, on success the pairs are flattened. -/
def load_cubes {R : Type} (io : IoModel R) (merge : List R → List R) (uris : UriInput)
    (carg : ConstraintArg R) : Except LoadErr (List R) :=
  match _load_collection io uris carg with
  | .error e => .error e
  | .ok coll0 =>
    let collection := mergedPairs merge coll0
    let bad_pairs := badPairs collection
    if bad_pairs.isEmpty then .ok (collectionCubes collection)
    else .error (.constraintMismatchError (mismatchMessage bad_pairs))

/-- `load_raw`: partition only — the merge step is skipped — and flatten
the unmerged pairs directly. -/
def load_raw {R : Type} (io : IoModel R) (uris : UriInput) (carg : ConstraintArg R) :
    Except LoadErr (List R) :=
  (_load_collection io uris carg).map collectionCubes

/-- A scheme group that streams without incident: either empty, or headed
by a supported scheme whose loader reports no premature end-of-stream. -/
def groupClean {R : Type} (io : IoModel R) : List (String × String) → Prop
  | [] => True
  | (sc, ident) :: t =>
    (sc = "file" ∧ (io.load_files (fileArgs ((sc, ident) :: t))).2 = none) ∨
    ((sc = "http" ∨ sc = "https") ∧ (io.load_http (httpArgs ((sc, ident) :: t))).2 = none)

/-! ## Concrete instances used to instantiate the theorems -/

/-- A concrete loader model over `Nat` records: the decoder splits at the
first colon, the file loader yields one record per identifier, the http
loader yields each URL's length. -/
def ioW : IoModel Nat where
  decode_uri s :=
    (⟨s.data.takeWhile (fun c => !(c == ':'))⟩,
     ⟨(s.data.dropWhile (fun c => !(c == ':'))).drop 1⟩)
  load_files ids := (List.range ids.length, none)
  load_http urls := (urls.map String.length, none)

/-- A loader model whose file loader signals premature end-of-stream. -/
def ioEofW : IoModel Nat :=
  { ioW with load_files := fun _ => ([], some "failed to read field") }

/-- A concrete constraint over `Nat` records matching even records. -/
def evenC : Constraint Nat := ⟨"even", fun n => n % 2 == 0⟩

/-- A concrete constraint over `Nat` records matching odd records. -/
def oddC : Constraint Nat := ⟨"odd", fun n => n % 2 == 1⟩

/-! ### Supporting lemmas about the option store -/

theorem hasOpt_setKey (st : OptMap) (n m : String) (b : Bool) :
    hasOpt (setKey st n b) m = hasOpt st m := by
  induction st with
  | nil => rfl
  | cons p rest ih =>
    obtain ⟨k, v⟩ := p
    simp only [setKey]
    by_cases hk : k == n
    · simp only [hk, if_true, hasOpt, getOpt]
      by_cases hm : k == m <;> simp [hm]
    · simp only [hk, Bool.false_eq_true, if_false]
      simp only [hasOpt, getOpt] at ih ⊢
      by_cases hm : k == m
      · simp [hm]
      · simp [hm, ih]

theorem applyKwargs_valid_append_bad (bad : String) (v : Bool)
    (rest : List (String × Bool)) (goods : List (String × Bool)) :
    ∀ st0 : OptMap, (∀ p ∈ goods, hasOpt st0 p.1 = true) → hasOpt st0 bad = false →
      Future.applyKwargs st0 (goods ++ (bad, v) :: rest)
        = ((Future.applyKwargs st0 goods).1,
           some ("'Future' object has no attribute '" ++ bad ++ "'")) ∧
      (Future.applyKwargs st0 goods).2 = none := by
  induction goods with
  | nil =>
    intro st0 _ hb
    simp [Future.applyKwargs, Future.setattr, hb]
  | cons g gs ih =>
    intro st0 hg hb
    obtain ⟨n, w⟩ := g
    have hn : hasOpt st0 n = true := hg (n, w) (by simp)
    simp only [List.cons_append, Future.applyKwargs, Future.setattr, hn, if_true]
    exact ih (setKey st0 n w)
      (fun p hp => by rw [hasOpt_setKey]; exact hg p (by simp [hp]))
      (by rw [hasOpt_setKey]; exact hb)

/-! ### Order lemmas for the tuple comparison -/

theorem char_eq_of_toNat_eq {a b : Char} (h : a.toNat = b.toNat) : a = b := by
  apply Char.eq_of_val_eq
  apply UInt32.eq_of_val_eq
  apply Fin.ext
  exact h

theorem ltChars_irrefl : ∀ x : List Char, ltChars x x = false
  | [] => rfl
  | _ :: as => by simp [ltChars, ltChars_irrefl as]

theorem ltChars_trans :
    ∀ {x y z : List Char}, ltChars x y = true → ltChars y z = true → ltChars x z = true
  | [], [], _, h1, _ => by simp [ltChars] at h1
  | [], _ :: _, [], _, h2 => by simp [ltChars] at h2
  | [], _ :: _, _ :: _, _, _ => by simp [ltChars]
  | _ :: _, [], _, h1, _ => by simp [ltChars] at h1
  | _ :: _, _ :: _, [], _, h2 => by simp [ltChars] at h2
  | a :: as, b :: bs, c :: cs, h1, h2 => by
    simp only [ltChars] at h1 h2 ⊢
    by_cases hab : a.toNat < b.toNat
    · by_cases hbc : b.toNat < c.toNat
      · rw [if_pos (Nat.lt_trans hab hbc)]
      · rw [if_neg hbc] at h2
        by_cases hcb : c.toNat < b.toNat
        · rw [if_pos hcb] at h2; exact absurd h2 (by simp)
        · rw [if_pos (show a.toNat < c.toNat by omega)]
    · rw [if_neg hab] at h1
      by_cases hba : b.toNat < a.toNat
      · rw [if_pos hba] at h1; exact absurd h1 (by simp)
      · rw [if_neg hba] at h1
        by_cases hbc : b.toNat < c.toNat
        · rw [if_pos (show a.toNat < c.toNat by omega)]
        · rw [if_neg hbc] at h2
          by_cases hcb : c.toNat < b.toNat
          · rw [if_pos hcb] at h2; exact absurd h2 (by simp)
          · rw [if_neg hcb] at h2
            rw [if_neg (show ¬a.toNat < c.toNat by omega),
              if_neg (show ¬c.toNat < a.toNat by omega)]
            exact ltChars_trans h1 h2

theorem ltChars_eq_of_not :
    ∀ {x y : List Char}, ltChars x y = false → ltChars y x = false → x = y
  | [], [], _, _ => rfl
  | [], _ :: _, h1, _ => by simp [ltChars] at h1
  | _ :: _, [], _, h2 => by simp [ltChars] at h2
  | a :: as, b :: bs, h1, h2 => by
    simp only [ltChars] at h1 h2
    by_cases hab : a.toNat < b.toNat
    · rw [if_pos hab] at h1; exact absurd h1 (by simp)
    · rw [if_neg hab] at h1
      by_cases hba : b.toNat < a.toNat
      · rw [if_pos hba] at h2; exact absurd h2 (by simp)
      · rw [if_neg hba] at h1
        rw [if_neg (show ¬b.toNat < a.toNat from hba),
          if_neg (show ¬a.toNat < b.toNat from hab)] at h2
        have hc : a = b := char_eq_of_toNat_eq (by omega)
        rw [hc, ltChars_eq_of_not h1 h2]

theorem pairLe_total (p q : String × String) : pairLe p q = true ∨ pairLe q p = true := by
  unfold pairLe strLt strLe
  by_cases h1 : ltChars p.1.data q.1.data = true
  · left; rw [if_pos h1]
  · by_cases h2 : ltChars q.1.data p.1.data = true
    · right; rw [if_pos h2]
    · by_cases h3 : ltChars p.2.data q.2.data = true
      · left; rw [if_neg h1, if_neg h2, h3, Bool.true_or]
      · by_cases h4 : ltChars q.2.data p.2.data = true
        · right; rw [if_neg h2, if_neg h1, h4, Bool.true_or]
        · have he2 : p.2.data = q.2.data :=
            ltChars_eq_of_not (Bool.not_eq_true _ ▸ h3) (Bool.not_eq_true _ ▸ h4)
          left
          rw [if_neg h1, if_neg h2, he2]
          simp

theorem pairLe_trans {p q r : String × String}
    (h1 : pairLe p q = true) (h2 : pairLe q r = true) : pairLe p r = true := by
  unfold pairLe strLt strLe at h1 h2 ⊢
  by_cases hA : ltChars p.1.data q.1.data = true
  · by_cases hC : ltChars q.1.data r.1.data = true
    · rw [if_pos (ltChars_trans hA hC)]
    · by_cases hD : ltChars r.1.data q.1.data = true
      · rw [if_neg hC, if_pos hD] at h2; exact absurd h2 (by simp)
      · have heq : q.1.data = r.1.data :=
          ltChars_eq_of_not (Bool.not_eq_true _ ▸ hC) (Bool.not_eq_true _ ▸ hD)
        rw [if_pos (heq ▸ hA)]
  · by_cases hB : ltChars q.1.data p.1.data = true
    · rw [if_neg hA, if_pos hB] at h1; exact absurd h1 (by simp)
    · have heq1 : p.1.data = q.1.data :=
        ltChars_eq_of_not (Bool.not_eq_true _ ▸ hA) (Bool.not_eq_true _ ▸ hB)
      rw [if_neg hA, if_neg hB] at h1
      by_cases hC : ltChars q.1.data r.1.data = true
      · rw [if_pos (heq1 ▸ hC)]
      · by_cases hD : ltChars r.1.data q.1.data = true
        · rw [if_neg hC, if_pos hD] at h2; exact absurd h2 (by simp)
        · have heq2 : q.1.data = r.1.data :=
            ltChars_eq_of_not (Bool.not_eq_true _ ▸ hC) (Bool.not_eq_true _ ▸ hD)
          rw [if_neg hC, if_neg hD] at h2
          have hpr : p.1.data = r.1.data := heq1.trans heq2
          rw [if_neg (show ¬ltChars p.1.data r.1.data = true by
                rw [hpr, ltChars_irrefl]; simp),
            if_neg (show ¬ltChars r.1.data p.1.data = true by
                rw [hpr, ltChars_irrefl]; simp)]
          simp only [Bool.or_eq_true] at h1 h2
          rcases h1 with hlt1 | hbe1
          · rcases h2 with hlt2 | hbe2
            · rw [ltChars_trans hlt1 hlt2, Bool.true_or]
            · have hltr : ltChars p.2.data r.2.data = true := by
                rw [← eq_of_beq hbe2]; exact hlt1
              rw [hltr, Bool.true_or]
          · have hpq2 : p.2.data = q.2.data := eq_of_beq hbe1
            rcases h2 with hlt2 | hbe2
            · have hltr : ltChars p.2.data r.2.data = true := by
                rw [hpq2]; exact hlt2
              rw [hltr, Bool.true_or]
            · have hqr2 : q.2.data = r.2.data := eq_of_beq hbe2
              rw [hpq2.trans hqr2]
              simp

/-! ### Sorting lemmas -/

theorem insertPair_perm (p : String × String) (l : List (String × String)) :
    (insertPair p l).Perm (p :: l) := by
  induction l with
  | nil => exact List.Perm.refl _
  | cons q rest ih =>
    simp only [insertPair]
    by_cases h : pairLe p q = true
    · rw [if_pos h]
    · rw [if_neg h]
      exact (ih.cons q).trans (List.Perm.swap p q rest)

theorem sortPairs_perm (l : List (String × String)) : (sortPairs l).Perm l := by
  induction l with
  | nil => exact List.Perm.refl _
  | cons p rest ih =>
    exact (insertPair_perm p (sortPairs rest)).trans (ih.cons p)

theorem insertPair_sorted (p : String × String) {l : List (String × String)}
    (h : l.Pairwise (fun a b => pairLe a b = true)) :
    (insertPair p l).Pairwise (fun a b => pairLe a b = true) := by
  induction l with
  | nil => simp [insertPair]
  | cons q rest ih =>
    rcases List.pairwise_cons.mp h with ⟨hq, hrest⟩
    simp only [insertPair]
    by_cases hpq : pairLe p q = true
    · rw [if_pos hpq]
      refine List.pairwise_cons.mpr ⟨?_, h⟩
      intro x hx
      rcases List.mem_cons.mp hx with rfl | hx
      · exact hpq
      · exact pairLe_trans hpq (hq x hx)
    · rw [if_neg hpq]
      have hqp : pairLe q p = true := (pairLe_total p q).resolve_left hpq
      refine List.pairwise_cons.mpr ⟨?_, ih hrest⟩
      intro x hx
      have hx2 : x = p ∨ x ∈ rest := by
        simpa using (insertPair_perm p rest).mem_iff.mp hx
      rcases hx2 with rfl | hx2
      · exact hqp
      · exact hq x hx2

theorem sortPairs_sorted (l : List (String × String)) :
    (sortPairs l).Pairwise (fun a b => pairLe a b = true) := by
  induction l with
  | nil => simp [sortPairs]
  | cons p rest ih => exact insertPair_sorted p ih

/-! ### Grouping lemmas -/

theorem flatten_addToGroups (p : String × String) (G : List (List (String × String))) :
    (addToGroups p G).flatten = p :: G.flatten := by
  rcases G with _ | ⟨g0, gs⟩
  · rfl
  · rcases g0 with _ | ⟨q, t⟩
    · simp [addToGroups]
    · simp only [addToGroups]
      by_cases h : p.1 == q.1
      · rw [if_pos h]; simp
      · rw [if_neg h]; simp

theorem flatten_groupPairs (l : List (String × String)) : (groupPairs l).flatten = l := by
  induction l with
  | nil => rfl
  | cons p rest ih =>
    show (addToGroups p (groupPairs rest)).flatten = p :: rest
    rw [flatten_addToGroups, ih]

theorem groupPairs_good (l : List (String × String)) :
    (∀ g ∈ groupPairs l, g ≠ [] ∧ ∃ s, ∀ x ∈ g, x.1 = s) ∧
    (groupPairs l).Chain' (fun g₁ g₂ => headScheme g₁ ≠ headScheme g₂) := by
  induction l with
  | nil => simp [groupPairs]
  | cons p rest ih =>
    obtain ⟨ihg, ihc⟩ := ih
    show (∀ g ∈ addToGroups p (groupPairs rest), _) ∧
      (addToGroups p (groupPairs rest)).Chain' _
    rcases hG : groupPairs rest with _ | ⟨g0, gs⟩
    · refine ⟨?_, ?_⟩
      · intro g hg
        simp only [addToGroups, List.mem_singleton] at hg
        subst hg
        exact ⟨by simp, p.1, by simp⟩
      · simp [addToGroups]
    · rw [hG] at ihg ihc
      rcases g0 with _ | ⟨q, t⟩
      · exact absurd rfl (ihg [] (List.mem_cons_self _ _)).1
      · simp only [addToGroups]
        by_cases hpq : p.1 == q.1
        · rw [if_pos hpq]
          have hqt := ihg (q :: t) (List.mem_cons_self _ _)
          obtain ⟨_, s, hs⟩ := hqt
          refine ⟨?_, ?_⟩
          · intro g hg
            rcases List.mem_cons.mp hg with rfl | hg
            · refine ⟨by simp, s, ?_⟩
              intro x hx
              rcases List.mem_cons.mp hx with rfl | hx
              · exact (eq_of_beq hpq).trans (hs q (List.mem_cons_self _ _))
              · exact hs x hx
            · exact ihg g (List.mem_cons_of_mem _ hg)
          · rcases gs with _ | ⟨g1, gs'⟩
            · simp
            · rcases List.chain'_cons.mp ihc with ⟨hrel, hch⟩
              refine List.chain'_cons.mpr ⟨?_, hch⟩
              show p.1 ≠ headScheme g1
              rw [eq_of_beq hpq]
              exact hrel
        · rw [if_neg hpq]
          refine ⟨?_, ?_⟩
          · intro g hg
            rcases List.mem_cons.mp hg with rfl | hg
            · exact ⟨by simp, p.1, by simp⟩
            · exact ihg g hg
          · refine List.chain'_cons.mpr ⟨?_, ihc⟩
            show p.1 ≠ q.1
            exact beq_eq_false_iff_ne.mp (Bool.not_eq_true _ ▸ hpq)

/-! ### Claims about the Future option store -/

/-- C1: the claim asserts that `Future.context` restores the captured option
mapping on *every* exit path.  The source generator has no `try`/`finally`
around its `yield`, so when an exception propagates through the scoped block
the restore after the `yield` never runs.  Evaluated at the failing input:
default state `cell_time_objects = False`, scope `context(cell_time_objects=True)`,
block raises — after the exception propagates, reading the option gives
`True`, not the pre-entry `False` the claim (and the method's own docstring)
require. -/
theorem future_context_exception_skips_restore :
    Future.context (ε := Unit) (Future.init false) [("cell_time_objects", true)]
        (fun st => (st, some ()))
      = ([("cell_time_objects", true)], some (.bodyErr ())) ∧
    getOpt [("cell_time_objects", true)] "cell_time_objects" = some true ∧
    getOpt (Future.init false) "cell_time_objects" = some false := by
  decide

/-- C3 counterexample: the claim asserts that `context` applies its keyword
overrides atomically, leaving the option mapping unchanged when entry fails
on an unknown name.  With kwargs iterated as
`cell_time_objects=True, bogus=True` from the default state, entry fails on
`bogus` but `cell_time_objects` has already been set to `True` and the
restore never runs: the mapping after the failed entry differs from the
entry mapping. -/
theorem future_context_entry_failure_changes_mapping :
    Future.context (ε := Unit) (Future.init false)
        [("cell_time_objects", true), ("bogus", true)] (fun st => (st, none))
      = ([("cell_time_objects", true)],
         some (.unknownOption "'Future' object has no attribute 'bogus'")) ∧
    [(("cell_time_objects" : String), true)] ≠ Future.init false := by
  decide

/-- C3 (amended): setting an option name outside the originally-initialized
set fails with the unknown-option error, both via a direct `__setattr__` and
via a `context(**overrides)` keyword; however `context` applies its
overrides sequentially, not atomically: entry stops at the first unknown
name and the overrides applied before it remain in effect (the state at the
failure is exactly the valid prefix applied to the entry state). -/
theorem future_unknown_option_rejected_sequential_overrides
    (st0 : OptMap) (goods : List (String × Bool)) (bad : String) (v : Bool)
    (rest : List (String × Bool)) {ε : Type} (body : OptMap → OptMap × Option ε)
    (hg : ∀ p ∈ goods, hasOpt st0 p.1 = true) (hb : hasOpt st0 bad = false) :
    Future.setattr st0 bad v
      = .error ("'Future' object has no attribute '" ++ bad ++ "'") ∧
    Future.context st0 (goods ++ (bad, v) :: rest) body
      = ((Future.applyKwargs st0 goods).1,
         some (.unknownOption ("'Future' object has no attribute '" ++ bad ++ "'"))) := by
  obtain ⟨hak, _⟩ := applyKwargs_valid_append_bad bad v rest goods st0 hg hb
  constructor
  · simp [Future.setattr, hb]
  · simp [Future.context, hak]

/-- Witness for the amended C3 theorem at a concrete input: the valid
override `cell_time_objects=True` precedes the unknown name `bogus`. -/
theorem future_unknown_option_rejected_sequential_overrides_witness :
    Future.setattr (Future.init false) "bogus" true
      = .error "'Future' object has no attribute 'bogus'" ∧
    Future.context (ε := Unit) (Future.init false)
        ([("cell_time_objects", true)] ++ ("bogus", true) :: []) (fun st => (st, none))
      = ((Future.applyKwargs (Future.init false) [("cell_time_objects", true)]).1,
         some (.unknownOption "'Future' object has no attribute 'bogus'")) := by
  have h := future_unknown_option_rejected_sequential_overrides
    (Future.init false) [("cell_time_objects", true)] "bogus" true []
    (ε := Unit) (fun st => (st, none)) (by decide) (by decide)
  simpa using h

/-- C10: on normal completion of the scoped block, `Future.context` restores
the *entire* option mapping to the snapshot captured at entry — so every
direct attribute set performed inside the block (not only the keyword
overrides supplied at entry) is reverted, and a subsequent read of every
option returns its pre-entry value. -/
theorem future_context_normal_exit_restores_snapshot
    (st0 : OptMap) (kwargs : List (String × Bool)) (sets : List (String × Bool))
    (h : (Future.applyKwargs st0 kwargs).2 = none) :
    Future.context st0 kwargs (Future.directSets sets) = (st0, none) ∧
    ∀ n : String,
      getOpt (Future.context st0 kwargs (Future.directSets sets)).1 n = getOpt st0 n := by
  rcases hak : Future.applyKwargs st0 kwargs with ⟨st1, e⟩
  rw [hak] at h
  simp only at h
  subst h
  have hctx : Future.context st0 kwargs (Future.directSets sets) = (st0, none) := by
    simp [Future.context, hak, Future.directSets]
  exact ⟨hctx, fun n => by rw [hctx]⟩

/-- Witness for C10: inside the scope the block directly flips
`cell_time_objects` twice; normal exit restores the pre-entry mapping. -/
theorem future_context_normal_exit_restores_snapshot_witness :
    Future.context (Future.init false) [("cell_time_objects", true)]
        (Future.directSets [("cell_time_objects", false), ("cell_time_objects", true)])
      = (Future.init false, none) ∧
    ∀ n : String,
      getOpt (Future.context (Future.init false) [("cell_time_objects", true)]
        (Future.directSets [("cell_time_objects", false), ("cell_time_objects", true)])).1 n
        = getOpt (Future.init false) n :=
  future_context_normal_exit_restores_snapshot (Future.init false)
    [("cell_time_objects", true)]
    [("cell_time_objects", false), ("cell_time_objects", true)] (by decide)

/-! ### Supporting lemmas about the stream dispatch -/

theorem dispatchFile_none {R : Type} {io : IoModel R} {g : List (String × String)}
    (hnone : (io.load_files (fileArgs g)).2 = none) (t : List R × Option GenErr) :
    dispatchFile io g t = ((io.load_files (fileArgs g)).1 ++ t.1, t.2) := by
  unfold dispatchFile
  rcases hlf : io.load_files (fileArgs g) with ⟨rs, e⟩
  rw [hlf] at hnone
  simp only at hnone
  subst hnone
  simp

theorem dispatchHttp_none {R : Type} {io : IoModel R} {g : List (String × String)}
    (hnone : (io.load_http (httpArgs g)).2 = none) (t : List R × Option GenErr) :
    dispatchHttp io g t = ((io.load_http (httpArgs g)).1 ++ t.1, t.2) := by
  unfold dispatchHttp
  rcases hlf : io.load_http (httpArgs g) with ⟨rs, e⟩
  rw [hlf] at hnone
  simp only at hnone
  subst hnone
  simp

theorem processGroups_clean_prefix {R : Type} (io : IoModel R) (s ident : String)
    (tail : List (String × String)) (post : List (List (String × String)))
    (hbad : supportedScheme s = false) :
    ∀ pre : List (List (String × String)), (∀ g ∈ pre, groupClean io g) →
      processGroups io (pre ++ ((s, ident) :: tail) :: post)
        = ((processGroups io pre).1, some (.unsupportedScheme s)) := by
  unfold supportedScheme at hbad
  simp only [Bool.or_eq_false_iff] at hbad
  obtain ⟨⟨h1, h2⟩, h3⟩ := hbad
  intro pre
  induction pre with
  | nil =>
    intro _
    simp only [List.nil_append, processGroups]
    rw [if_neg (by rw [h1]; exact Bool.false_ne_true),
      if_neg (by rw [h2, h3]; simp)]
  | cons g pre' ih =>
    intro hclean
    have hg := hclean g (List.mem_cons_self _ _)
    have hpre' := fun g2 hg2 => hclean g2 (List.mem_cons_of_mem _ hg2)
    rcases g with _ | ⟨⟨sc, id0⟩, t⟩
    · show processGroups io ([] :: (pre' ++ _)) = ((processGroups io ([] :: pre')).1, _)
      rw [show processGroups io ([] :: (pre' ++ ((s, ident) :: tail) :: post))
            = processGroups io (pre' ++ ((s, ident) :: tail) :: post) from rfl,
        show processGroups io ([] :: pre') = processGroups io pre' from rfl]
      exact ih hpre'
    · rcases hg with ⟨rfl, hnone⟩ | ⟨hh, hnone⟩
      · have hl : processGroups io ((("file", id0) :: t) :: (pre' ++ ((s, ident) :: tail) :: post))
            = dispatchFile io (("file", id0) :: t)
                (processGroups io (pre' ++ ((s, ident) :: tail) :: post)) := by
          show (if ("file" == "file") = true then _ else _) = _
          rw [if_pos (by decide)]
        have hr : processGroups io ((("file", id0) :: t) :: pre')
            = dispatchFile io (("file", id0) :: t) (processGroups io pre') := by
          show (if ("file" == "file") = true then _ else _) = _
          rw [if_pos (by decide)]
        show processGroups io ((("file", id0) :: t) :: (pre' ++ ((s, ident) :: tail) :: post))
          = ((processGroups io ((("file", id0) :: t) :: pre')).1, _)
        rw [hl, hr, dispatchFile_none hnone, dispatchFile_none hnone, ih hpre']
      · rcases hh with rfl | rfl
        · have hl : processGroups io
                ((("http", id0) :: t) :: (pre' ++ ((s, ident) :: tail) :: post))
              = dispatchHttp io (("http", id0) :: t)
                  (processGroups io (pre' ++ ((s, ident) :: tail) :: post)) := by
            show (if ("http" == "file") = true then _ else _) = _
            rw [if_neg (by decide), if_pos (by decide)]
          have hr : processGroups io ((("http", id0) :: t) :: pre')
              = dispatchHttp io (("http", id0) :: t) (processGroups io pre') := by
            show (if ("http" == "file") = true then _ else _) = _
            rw [if_neg (by decide), if_pos (by decide)]
          show processGroups io ((("http", id0) :: t) :: (pre' ++ ((s, ident) :: tail) :: post))
            = ((processGroups io ((("http", id0) :: t) :: pre')).1, _)
          rw [hl, hr, dispatchHttp_none hnone, dispatchHttp_none hnone, ih hpre']
        · have hl : processGroups io
                ((("https", id0) :: t) :: (pre' ++ ((s, ident) :: tail) :: post))
              = dispatchHttp io (("https", id0) :: t)
                  (processGroups io (pre' ++ ((s, ident) :: tail) :: post)) := by
            show (if ("https" == "file") = true then _ else _) = _
            rw [if_neg (by decide), if_pos (by decide)]
          have hr : processGroups io ((("https", id0) :: t) :: pre')
              = dispatchHttp io (("https", id0) :: t) (processGroups io pre') := by
            show (if ("https" == "file") = true then _ else _) = _
            rw [if_neg (by decide), if_pos (by decide)]
          show processGroups io ((("https", id0) :: t) :: (pre' ++ ((s, ident) :: tail) :: post))
            = ((processGroups io ((("https", id0) :: t) :: pre')).1, _)
          rw [hl, hr, dispatchHttp_none hnone, dispatchHttp_none hnone, ih hpre']

/-! ### Claims about location resolution and the stream -/

/-- C7: a single bare location string is treated as a one-element list (not
iterated character-by-character); the multiset of decoded
`(scheme, identifier)` pairs carried by the scheme groups equals the
multiset of `decode_uri` results on the original input (no loss or
duplication); and the pairs are arranged as contiguous maximal runs of
equal scheme — every group nonempty and constant-scheme, adjacent groups
with distinct schemes — in sorted order with scheme as the primary key. -/
theorem generate_cubes_resolver_grouping {R : Type} (io : IoModel R) (uris : UriInput) :
    (∀ s, uriList (UriInput.single s) = [s]) ∧
    ((groupPairs (uri_tuples io uris)).flatten).Perm ((uriList uris).map io.decode_uri) ∧
    (∀ g ∈ groupPairs (uri_tuples io uris), g ≠ [] ∧ ∃ s, ∀ x ∈ g, x.1 = s) ∧
    (groupPairs (uri_tuples io uris)).Chain'
      (fun g₁ g₂ => headScheme g₁ ≠ headScheme g₂) ∧
    ((groupPairs (uri_tuples io uris)).flatten).Pairwise (fun a b => pairLe a b = true) := by
  obtain ⟨hgood, hchain⟩ := groupPairs_good (uri_tuples io uris)
  refine ⟨fun s => rfl, ?_, hgood, hchain, ?_⟩
  · rw [flatten_groupPairs]
    exact sortPairs_perm _
  · rw [flatten_groupPairs]
    exact sortPairs_sorted _

/-- C9: a file-scheme group is dispatched to the file loader with its raw
identifiers, while an http/https group is dispatched to the network loader
with each entry reconstructed as `scheme:identifier`. -/
theorem scheme_group_loader_arguments {R : Type} (io : IoModel R) (scheme ident : String)
    (rest : List (String × String)) (gs : List (List (String × String))) :
    fileArgs ((scheme, ident) :: rest) = ident :: rest.map Prod.snd ∧
    httpArgs ((scheme, ident) :: rest)
      = (scheme ++ ":" ++ ident) :: rest.map (fun x => x.1 ++ ":" ++ x.2) ∧
    (scheme = "file" →
      processGroups io (((scheme, ident) :: rest) :: gs)
        = dispatchFile io ((scheme, ident) :: rest) (processGroups io gs)) ∧
    ((scheme = "http" ∨ scheme = "https") →
      processGroups io (((scheme, ident) :: rest) :: gs)
        = dispatchHttp io ((scheme, ident) :: rest) (processGroups io gs)) ∧
    (∀ t, dispatchFile io ((scheme, ident) :: rest) t
        = match io.load_files (ident :: rest.map Prod.snd) with
          | (rs, some d) => (rs, some (GenErr.eof d))
          | (rs, none) => (rs ++ t.1, t.2)) ∧
    (∀ t, dispatchHttp io ((scheme, ident) :: rest) t
        = match io.load_http
              ((scheme ++ ":" ++ ident) :: rest.map (fun x => x.1 ++ ":" ++ x.2)) with
          | (rs, some d) => (rs, some (GenErr.eof d))
          | (rs, none) => (rs ++ t.1, t.2)) := by
  refine ⟨rfl, rfl, ?_, ?_, fun t => rfl, fun t => rfl⟩
  · rintro rfl
    show (if ("file" == "file") = true then _ else _) = _
    rw [if_pos (by decide)]
  · rintro (rfl | rfl)
    · show (if ("http" == "file") = true then _ else _) = _
      rw [if_neg (by decide), if_pos (by decide)]
    · show (if ("https" == "file") = true then _ else _) = _
      rw [if_neg (by decide), if_pos (by decide)]

/-- Witness for C9 at a concrete loader model and concrete groups. -/
theorem scheme_group_loader_arguments_witness :
    (processGroups ioW [[("file", "a"), ("file", "b")]]
      = dispatchFile ioW [("file", "a"), ("file", "b")] (processGroups ioW [])) ∧
    (processGroups ioW [[("http", "h")]]
      = dispatchHttp ioW [("http", "h")] (processGroups ioW [])) :=
  ⟨(scheme_group_loader_arguments ioW "file" "a" [("file", "b")] []).2.2.1 rfl,
   (scheme_group_loader_arguments ioW "http" "h" [] []).2.2.2.1 (Or.inl rfl)⟩

/-- C4: an unrecognized scheme makes the stream fail with the unknown-scheme
`ValueError` naming the offending scheme, and it does so lazily: every group
sorted before the offending one is still streamed (its records are exactly
those of the clean prefix), groups after it are never reached, and the load
pipeline surfaces the error. -/
theorem unsupported_scheme_raised_lazily {R : Type} (io : IoModel R) (uris : UriInput)
    (carg : ConstraintArg R) (pre : List (List (String × String))) (s ident : String)
    (tail : List (String × String)) (post : List (List (String × String)))
    (hdec : groupPairs (uri_tuples io uris) = pre ++ ((s, ident) :: tail) :: post)
    (hclean : ∀ g ∈ pre, groupClean io g)
    (hbad : supportedScheme s = false) :
    _generate_cubes io uris = ((processGroups io pre).1, some (.unsupportedScheme s)) ∧
    _load_collection io uris carg
      = .error (.valueError ("Iris cannot handle the URI scheme: " ++ s)) := by
  have hgen : _generate_cubes io uris
      = ((processGroups io pre).1, some (.unsupportedScheme s)) := by
    unfold _generate_cubes
    rw [hdec]
    exact processGroups_clean_prefix io s ident tail post hbad pre hclean
  refine ⟨hgen, ?_⟩
  unfold _load_collection
  rw [hgen]

/-- Witness for C4: locations `["ftp:x", "file:a"]` — the file group sorts
first and is streamed, then the `ftp` group aborts the stream. -/
theorem unsupported_scheme_raised_lazily_witness :
    groupPairs (uri_tuples ioW (.listOf ["ftp:x", "file:a"]))
      = [[("file", "a")]] ++ (("ftp", "x") :: []) :: [] ∧
    (_generate_cubes ioW (.listOf ["ftp:x", "file:a"])
        = ((processGroups ioW [[("file", "a")]]).1, some (.unsupportedScheme "ftp")) ∧
      _load_collection ioW (.listOf ["ftp:x", "file:a"]) ConstraintArg.noneArg
        = .error (.valueError ("Iris cannot handle the URI scheme: " ++ "ftp"))) :=
  ⟨by decide,
   unsupported_scheme_raised_lazily ioW (.listOf ["ftp:x", "file:a"])
     ConstraintArg.noneArg [[("file", "a")]] "ftp" "x" [] [] (by decide)
     (by
       intro g hg
       simp only [List.mem_singleton] at hg
       subst hg
       exact Or.inl ⟨rfl, rfl⟩)
     (by decide)⟩

/-! ### Claims about the load entry points -/

/-- C2: `load_cube` with a constraint argument normalizing to anything but
exactly one constraint fails with the arity `ValueError`, and the outcome is
the same for every loader model and every locations input — the check
happens before any stream is created or any loader is consulted. -/
theorem load_cube_arity_before_io {R : Type} (io : IoModel R) (merge : List R → List R)
    (uris : UriInput) (carg : ConstraintArg R)
    (h : (list_of_constraints carg).length ≠ 1) :
    load_cube io merge uris carg
      = .error (.valueError "only a single constraint is allowed") ∧
    ∀ (io2 : IoModel R) (uris2 : UriInput),
      load_cube io2 merge uris2 carg = load_cube io merge uris carg := by
  have he : ∀ (io2 : IoModel R) (uris2 : UriInput),
      load_cube io2 merge uris2 carg
        = .error (.valueError "only a single constraint is allowed") := by
    intro io2 uris2
    simp only [load_cube]
    rw [if_pos h]
  exact ⟨he io uris, fun io2 uris2 => (he io2 uris2).trans (he io uris).symm⟩

/-- Witness for C2: zero constraints (`[]`), a locations input that would
otherwise load successfully. -/
theorem load_cube_arity_before_io_witness :
    (list_of_constraints (ConstraintArg.many ([] : List (Constraint Nat)))).length ≠ 1 ∧
    load_cube ioW (fun rs => rs) (.single "file:a") (ConstraintArg.many [])
      = .error (.valueError "only a single constraint is allowed") :=
  ⟨by decide,
   (load_cube_arity_before_io ioW (fun rs => rs) (.single "file:a")
     (ConstraintArg.many []) (by decide)).1⟩

/-- C6: `load_raw` partitions but never merges: its result is the
concatenation of each constraint's unmerged matched records in constraint
order (generation order within each pair), and its record count is the sum
of the per-pair unmerged match counts — no merge function appears anywhere
in the result. -/
theorem load_raw_skips_merge {R : Type} (io : IoModel R) (uris : UriInput)
    (carg : ConstraintArg R) (cubes : List R)
    (h : _generate_cubes io uris = (cubes, none)) :
    load_raw io uris carg
      = .ok (((list_of_constraints carg).map (fun c => cubes.filter c.accepts)).flatten) ∧
    (((list_of_constraints carg).map (fun c => cubes.filter c.accepts)).flatten).length
      = ((list_of_constraints carg).map (fun c => (cubes.filter c.accepts).length)).sum := by
  constructor
  · unfold load_raw _load_collection
    rw [h]
    show Except.ok (collectionCubes (from_cubes cubes carg)) = _
    unfold collectionCubes from_cubes
    rw [List.map_map]
    rfl
  · rw [List.length_flatten, List.map_map]
    rfl

/-- Witness for C6: two file records partitioned by the even/odd
constraints. -/
theorem load_raw_skips_merge_witness :
    _generate_cubes ioW (.listOf ["file:a", "file:b"]) = ([0, 1], none) ∧
    (load_raw ioW (.listOf ["file:a", "file:b"]) (ConstraintArg.many [evenC, oddC])
        = .ok (((list_of_constraints (ConstraintArg.many [evenC, oddC])).map
            (fun c => [0, 1].filter c.accepts)).flatten) ∧
      (((list_of_constraints (ConstraintArg.many [evenC, oddC])).map
            (fun c => [0, 1].filter c.accepts)).flatten).length
        = ((list_of_constraints (ConstraintArg.many [evenC, oddC])).map
            (fun c => ([0, 1].filter c.accepts).length)).sum) :=
  ⟨by decide,
   load_raw_skips_merge ioW (.listOf ["file:a", "file:b"])
     (ConstraintArg.many [evenC, oddC]) [0, 1] (by decide)⟩

/-- C8: a premature end-of-stream from the underlying loader is re-raised
by `_load_collection` as a `TranslationError` describing the source as
empty or incomplete and carrying the original detail message, and every
load entry point surfaces it. -/
theorem premature_eof_translation_error {R : Type} (io : IoModel R) (uris : UriInput)
    (carg : ConstraintArg R) (merge : List R → List R) (rs : List R) (d : String)
    (h : _generate_cubes io uris = (rs, some (.eof d))) :
    _load_collection io uris carg
      = .error (.translationError ("The file appears empty or incomplete: " ++ pyStrRepr d)) ∧
    load io merge uris carg
      = .error (.translationError ("The file appears empty or incomplete: " ++ pyStrRepr d)) ∧
    load_cubes io merge uris carg
      = .error (.translationError ("The file appears empty or incomplete: " ++ pyStrRepr d)) ∧
    load_raw io uris carg
      = .error (.translationError ("The file appears empty or incomplete: " ++ pyStrRepr d)) ∧
    ((list_of_constraints carg).length = 1 →
      load_cube io merge uris carg
        = .error (.translationError
            ("The file appears empty or incomplete: " ++ pyStrRepr d))) := by
  have hc : ∀ c2 : ConstraintArg R, _load_collection io uris c2
      = .error (.translationError ("The file appears empty or incomplete: " ++ pyStrRepr d)) := by
    intro c2
    unfold _load_collection
    rw [h]
  refine ⟨hc carg, ?_, ?_, ?_, ?_⟩
  · unfold load
    rw [hc carg]
    rfl
  · unfold load_cubes
    rw [hc carg]
  · unfold load_raw
    rw [hc carg]
    rfl
  · intro h1
    simp only [load_cube]
    rw [if_neg (fun hne => hne h1), hc (.many (list_of_constraints carg))]
    rfl

/-- Witness for C8: the file loader reports end-of-stream with detail
`failed to read field`. -/
theorem premature_eof_translation_error_witness :
    _generate_cubes ioEofW (.single "file:a") = ([], some (.eof "failed to read field")) ∧
    (_load_collection ioEofW (.single "file:a") ConstraintArg.noneArg
        = .error (.translationError
            ("The file appears empty or incomplete: " ++ pyStrRepr "failed to read field")) ∧
      load ioEofW (fun rs => rs) (.single "file:a") ConstraintArg.noneArg
        = .error (.translationError
            ("The file appears empty or incomplete: " ++ pyStrRepr "failed to read field")) ∧
      load_cubes ioEofW (fun rs => rs) (.single "file:a") ConstraintArg.noneArg
        = .error (.translationError
            ("The file appears empty or incomplete: " ++ pyStrRepr "failed to read field")) ∧
      load_raw ioEofW (.single "file:a") ConstraintArg.noneArg
        = .error (.translationError
            ("The file appears empty or incomplete: " ++ pyStrRepr "failed to read field")) ∧
      ((list_of_constraints (ConstraintArg.noneArg : ConstraintArg Nat)).length = 1 →
        load_cube ioEofW (fun rs => rs) (.single "file:a") ConstraintArg.noneArg
          = .error (.translationError
              ("The file appears empty or incomplete: " ++ pyStrRepr "failed to read field")))) :=
  ⟨by decide,
   premature_eof_translation_error ioEofW (.single "file:a") ConstraintArg.noneArg
     (fun rs => rs) [] "failed to read field" (by decide)⟩

theorem forall2_singletons {R : Type} :
    ∀ m : List (Constraint R × List R), (∀ p ∈ m, p.2.length = 1) →
      List.Forall₂ (fun (p : Constraint R × List R) r => p.2 = [r]) m (collectionCubes m)
  | [], _ => List.Forall₂.nil
  | p :: rest, h => by
    rcases hp : p.2 with _ | ⟨x, xs⟩
    · have h1 := h p (List.mem_cons_self _ _)
      rw [hp] at h1
      simp at h1
    · have hxs : xs = [] := by
        have h1 := h p (List.mem_cons_self _ _)
        rw [hp] at h1
        simpa using h1
      subst hxs
      have hcc : collectionCubes (p :: rest) = x :: collectionCubes rest := by
        unfold collectionCubes
        rw [List.map_cons, List.flatten_cons, hp]
        rfl
      rw [hcc]
      exact List.Forall₂.cons hp
        (forall2_singletons rest (fun q hq => h q (List.mem_cons_of_mem _ hq)))

/-- C5: `load_cubes` requires every pair's merged record list to have
length exactly one.  When every pair complies it returns exactly one record
per constraint, in constraint order; otherwise it fails with a
`ConstraintMismatchError` whose message enumerates exactly the offending
pairs — every pair whose merged count differs from one, each with the count
it actually produced, and no pair that merged to exactly one. -/
theorem load_cubes_per_constraint_cardinality {R : Type} (io : IoModel R)
    (merge : List R → List R) (uris : UriInput) (carg : ConstraintArg R)
    (coll : List (Constraint R × List R))
    (h : _load_collection io uris carg = .ok coll) :
    (badPairs (mergedPairs merge coll) = [] →
      load_cubes io merge uris carg = .ok (collectionCubes (mergedPairs merge coll)) ∧
      List.Forall₂ (fun (p : Constraint R × List R) r => p.2 = [r])
        (mergedPairs merge coll) (collectionCubes (mergedPairs merge coll))) ∧
    (badPairs (mergedPairs merge coll) ≠ [] →
      load_cubes io merge uris carg
        = .error (.constraintMismatchError
            (mismatchMessage (badPairs (mergedPairs merge coll))))) ∧
    (∀ p ∈ mergedPairs merge coll,
      (p.2.length ≠ 1 ↔ p ∈ badPairs (mergedPairs merge coll))) := by
  have hlc : load_cubes io merge uris carg
      = (if (badPairs (mergedPairs merge coll)).isEmpty
          then .ok (collectionCubes (mergedPairs merge coll))
          else .error (.constraintMismatchError
            (mismatchMessage (badPairs (mergedPairs merge coll))))) := by
    unfold load_cubes
    rw [h]
  refine ⟨?_, ?_, ?_⟩
  · intro hb
    have hall : ∀ p ∈ mergedPairs merge coll, p.2.length = 1 := by
      intro p hp
      by_contra hne
      have hmem : p ∈ badPairs (mergedPairs merge coll) :=
        List.mem_filter.mpr ⟨hp, by simpa using hne⟩
      rw [hb] at hmem
      simp at hmem
    refine ⟨?_, forall2_singletons _ hall⟩
    rw [hlc, hb]
    rfl
  · intro hb
    rcases hbp : badPairs (mergedPairs merge coll) with _ | ⟨b, bs⟩
    · exact absurd hbp hb
    · rw [hlc, hbp]
      rfl
  · intro p hp
    constructor
    · intro hne
      exact List.mem_filter.mpr ⟨hp, by simpa using hne⟩
    · intro hm
      have h2 := (List.mem_filter.mp hm).2
      simpa using h2

/-- Witness for C5: one file record, constraints even/odd — the odd pair
merges to zero records, so the error enumerates exactly that pair. -/
theorem load_cubes_per_constraint_cardinality_witness :
    _load_collection ioW (.single "file:a") (ConstraintArg.many [evenC, oddC])
      = .ok (from_cubes [0] (ConstraintArg.many [evenC, oddC])) ∧
    (badPairs (mergedPairs (fun rs => rs)
          (from_cubes [0] (ConstraintArg.many [evenC, oddC]))) ≠ [] →
      load_cubes ioW (fun rs => rs) (.single "file:a") (ConstraintArg.many [evenC, oddC])
        = .error (.constraintMismatchError
            (mismatchMessage (badPairs (mergedPairs (fun rs => rs)
              (from_cubes [0] (ConstraintArg.many [evenC, oddC]))))))) :=
  ⟨rfl,
   (load_cubes_per_constraint_cardinality ioW (fun rs => rs) (.single "file:a")
     (ConstraintArg.many [evenC, oddC])
     (from_cubes [0] (ConstraintArg.many [evenC, oddC])) rfl).2.1⟩

end Iris
